import Mathlib

/-!
Verification of `.circleci/build-notebooks.py`: a CI helper that walks a
directory tree of Jupyter notebooks, groups them into per-directory
Categories, generates per-category environment-setup scripts and
per-notebook build scripts, and sequentially invokes the generated
scripts as subprocesses.

The embedding below is a shallow model of the Python source:
pure string templating becomes Lean functions on `String`,
filesystem side effects become explicit event/operation lists, and
exceptions become `Except`/`Option` error values.
-/

namespace BuildNotebooks

/-- Model of `os.path.join a b` for the uses in this program: every call
site joins a directory path with a plain basename (never an absolute
second component), so the join is plain concatenation with a slash. -/
def joinPath (a b : String) : String := a ++ "/" ++ b

/-- Split a character list at every occurrence of `sep`, keeping empty
pieces, like Python's `str.split(sep)`.  The result is never empty. -/
def splitChar (sep : Char) : List Char → List (List Char)
  | [] => [[]]
  | c :: cs =>
    match splitChar sep cs with
    | [] => [[c]]
    | h :: t => if c == sep then [] :: h :: t else (c :: h) :: t

/-- True when `suffix` is a suffix of `s` (character-wise). -/
def strEndsWith (s suffix : String) : Bool := suffix.data.isSuffixOf s.data

/-- True when `pre` is a prefix of `s` (character-wise). -/
def strStartsWith (s pre : String) : Bool := pre.data.isPrefixOf s.data

/-- Python's `sep.join(xs)`. -/
def pyJoin (sep : String) : List String → String
  | [] => ""
  | x :: rest => rest.foldl (fun acc y => acc ++ sep ++ y) x

/-- Model of `os.path.basename`: the part after the last slash. -/
def basename (p : String) : String := String.mk ((splitChar '/' p.data).getLastD [])

/-- Model of `os.path.dirname`: everything before the last slash
(empty when there is no slash), matching Python for the slash-containing
paths this program builds. -/
def dirname (p : String) : String :=
  let parts := splitChar '/' p.data
  if parts.length ≤ 1 then "" else String.mk (List.intercalate ['/'] parts.dropLast)

/-- Model of Python's `s.rsplit('.', 1)[0]`: drop the last dot-suffix,
returning the string unchanged when it has no dot. -/
def rsplitDot (s : String) : String :=
  let parts := splitChar '.' s.data
  if parts.length ≤ 1 then s else String.mk (List.intercalate ['.'] parts.dropLast)

/-- Model of `os.path.relpath p` (relative to the working directory
`cwd`): every path this program passes is located under `cwd`, for which
`relpath` strips the `cwd ++ "/"` prefix; other inputs are returned
unchanged. -/
def relpathStr (cwd p : String) : String :=
  if strStartsWith p (cwd ++ "/") then String.mk (p.data.drop (cwd.data.length + 1)) else p

/-- `BUILD_BASE_DIR` constant from the source. -/
def BUILD_BASE_DIR : String := "/tmp/nbcollection-ci-build-base-dir"

/-- `ARTIFACT_DEST_DIR` constant from the source. -/
def ARTIFACT_DEST_DIR : String := "/tmp/artifacts"

/-- The `Notebook` named tuple. -/
structure Notebook where
  name : String
  filename : String
  filepath : String
deriving DecidableEq, Repr

/-- The `Category` named tuple. -/
structure Category where
  name : String
  notebooks : List Notebook
  source_dir : String
  build_dir : String
  artifact_dir : String
deriving DecidableEq, Repr

/-- The `Collection` named tuple. -/
structure Collection where
  name : String
  categories : List Category
deriving DecidableEq, Repr

/-- The `BuildJob` named tuple (its first field is called `name` in the
source even though it holds the Category). -/
structure BuildJob where
  name : Category
  scripts : List String
deriving DecidableEq, Repr

/-!
A directory tree: a name, the plain files directly inside it, and its
subdirectories.  `FsForest` is the list of subdirectories; a separate
mutual inductive keeps all recursion over trees structural.
-/
mutual
inductive FsTree : Type where
  | dir (name : String) (files : List String) (subdirs : FsForest)

inductive FsForest : Type where
  | nil
  | cons (head : FsTree) (tail : FsForest)
end

def FsTree.name : FsTree → String
  | .dir n _ _ => n

def FsTree.files : FsTree → List String
  | .dir _ fs _ => fs

def FsTree.subdirs : FsTree → FsForest
  | .dir _ _ ds => ds

/-- Model of `glob.glob(f'{dirpath}/*.ipynb')` restricted to the files of
one directory: `*` does not match a leading dot, and the pattern requires
the `.ipynb` suffix.  The result keeps directory-listing order. -/
def globIpynb (files : List String) : List String :=
  files.filter (fun f => strEndsWith f ".ipynb" && !(strStartsWith f "."))

/-- Construction of one `Notebook` value inside `build_categories`:
`name` is the basename without its last extension, `filename` the
basename, `filepath` the `os.path.relpath` of the full path. -/
def mkNotebook (cwd dirpath f : String) : Notebook :=
  { name := rsplitDot f
    filename := f
    filepath := relpathStr cwd (joinPath dirpath f) }

/-- The notebook list `build_categories` collects for one directory. -/
def notebooksOf (cwd dirpath : String) (files : List String) : List Notebook :=
  (globIpynb files).map (mkNotebook cwd dirpath)

/-- The `Category` value yielded by `build_categories` for subdirectory
`t` of the walk node at path `rp`. -/
def mkCategory (cwd rp : String) (t : FsTree) : Category :=
  { name := t.name
    notebooks := notebooksOf cwd (joinPath rp t.name) t.files
    source_dir := joinPath rp t.name
    build_dir := joinPath BUILD_BASE_DIR t.name
    artifact_dir := joinPath ARTIFACT_DEST_DIR t.name }

/-- The `NotImplementedError` message raised for a notebook directory
without `requirements.txt`. -/
def reqErrMsg (cwd dirpath : String) : String :=
  "Category missing Requirements File[" ++
    relpathStr cwd (joinPath dirpath "requirements.txt") ++ "]"

/-- Observable side effects of the scanner: the two conditional
`shutil.rmtree` calls (performed whether or not the directory exists:
removing an absent directory is a no-op in the state model) and the
`yield` of a Category. -/
inductive ScanEvent : Type where
  | cleanupBuild (catName : String)
  | cleanupArtifact (catName : String)
  | yieldCat (c : Category)
deriving DecidableEq, Repr

/-- Result of driving (part of) the `build_categories` generator to
exhaustion: the events produced in order, and the uncaught exception
message if the generator raised (events after the raise do not exist). -/
def Res : Type := List ScanEvent × Option String

/-- Sequencing of two generator fragments: when the first fragment
raised, the second never runs. -/
def combineRes (r1 r2 : Res) : Res :=
  match r1.2 with
  | some e => (r1.1, some e)
  | none => (r1.1 ++ r2.1, r2.2)

/-!
The body of `build_categories(start_path)`.  The source iterates
`for root, dirnames, _ in os.walk(start_path): for dirname in dirnames:`
and, per subdirectory: collects `*.ipynb` files; if any are present it
checks `requirements.txt` (raising `NotImplementedError` when absent),
removes any stale build/artifact directory for that name and yields a
`Category`; otherwise it recurses `build_categories(dirpath)` and
forwards the yielded values.

`rowScan cwd rp cs` processes the children `cs` of the walk node at path
`rp` (the inner `for dirname in dirnames` loop); the recursive call
`build_categories(dirpath)` is inlined as its body
`combineRes (rowScan ..) (walkRest ..)` so that the mutual recursion is
structural.  `walkRest cwd p cs` processes all the remaining `os.walk`
entries below the children `cs` in depth-first (top-down) order.
-/
mutual
def rowScan (cwd rp : String) : FsForest → Res
  | .nil => ([], none)
  | .cons (.dir nm fs subs) rest =>
    let dirpath := joinPath rp nm
    let notebooks := notebooksOf cwd dirpath fs
    let r1 : Res :=
      if notebooks.isEmpty then
        -- `build_categories(dirpath)` inlined: walk the subtree
        combineRes (rowScan cwd dirpath subs) (walkRest cwd dirpath subs)
      else if fs.contains "requirements.txt" then
        ([ScanEvent.cleanupBuild nm, ScanEvent.cleanupArtifact nm,
          ScanEvent.yieldCat (mkCategory cwd rp (.dir nm fs subs))], none)
      else
        ([], some (reqErrMsg cwd dirpath))
    combineRes r1 (rowScan cwd rp rest)
  termination_by structural cs => cs

def walkRest (cwd p : String) : FsForest → Res
  | .nil => ([], none)
  | .cons (.dir nm _fs subs) rest =>
    let cp := joinPath p nm
    combineRes (combineRes (rowScan cwd cp subs) (walkRest cwd cp subs))
      (walkRest cwd p rest)
  termination_by structural cs => cs
end

/-- `build_categories(start_path)` where `t` is the directory tree rooted
at `start_path = p`: the walk processes the root's own children first,
then every deeper walk entry. -/
def build_categories (cwd p : String) (t : FsTree) : Res :=
  combineRes (rowScan cwd p t.subdirs) (walkRest cwd p t.subdirs)

/-- The categories among a scan's events. -/
def yields (evs : List ScanEvent) : List Category :=
  evs.filterMap fun e =>
    match e with
    | .yieldCat c => some c
    | _ => none

/-- The local variable `metadata_path` of `Notebook.create_build_script`:
`f'{artifact_dir}/{categories_formatted}/{self.filename}.metadata.json'`
with `categories_formatted = '/'.join(categories)`. -/
def metadata_path (artifact_dir : String) (categories : List String) (filename : String) : String :=
  artifact_dir ++ "/" ++ pyJoin "/" categories ++ "/" ++ filename ++ ".metadata.json"

/-- The local variable `html_path` of `Notebook.create_build_script`. -/
def html_path (artifact_dir : String) (categories : List String) (filename : String) : String :=
  artifact_dir ++ "/" ++ pyJoin "/" categories ++ "/" ++ filename ++ ".html"

/-- The generated per-notebook build script text (the `build_script`
f-string of `Notebook.create_build_script`). -/
def build_script_content (nb : Notebook) (categories : List String)
    (build_dir artifact_dir : String) : String :=
  let mp := metadata_path artifact_dir categories nb.filename
  let hp := html_path artifact_dir categories nb.filename
  let output_dir := dirname hp
  "#!/usr/bin/env bash\nset -e\ncd " ++ build_dir ++
  "\nbash setup-build-env.sh\nsource env/bin/activate\nif [ -f \"environment.sh\" ]; then\n    source environment.sh\nfi\n\nmkdir -p " ++
  output_dir ++
  "\npython extract_metadata_from_notebook.py --input \"" ++ nb.filename ++
  "\" --output \"" ++ mp ++
  "\"\njupyter nbconvert --debug --to html --execute \"" ++ nb.filename ++
  "\" --output \"" ++ hp ++
  "\" --ExecutePreprocessor.timeout=600\ncd -\n"

/-- A filesystem operation performed by the build-environment setup and
script generation: directory creation, writing a file with given
content, or byte-copying a file. -/
inductive FileOp : Type where
  | mkdir (path : String)
  | write (path : String) (content : String)
  | copy (src : String) (dst : String)
deriving DecidableEq, Repr

/-- `Notebook.create_build_script`: writes the generated script to
`<build_dir>/<filename>-builder.sh`. -/
def Notebook.create_build_script (nb : Notebook) (categories : List String)
    (build_dir artifact_dir : String) : FileOp :=
  .write (joinPath build_dir (nb.filename ++ "-builder.sh"))
    (build_script_content nb categories build_dir artifact_dir)

/-- `Notebook.inject_notebook`: byte-copies the notebook file into the
build directory under its original filename. -/
def Notebook.inject_notebook (nb : Notebook) (build_dir : String) : FileOp :=
  .copy nb.filepath (joinPath build_dir nb.filename)

/-- The `env_setup_script` f-string of `Category.setup_build_env`. -/
def env_setup_script (c : Category) : String :=
  "#!/usr/bin/env bash\nset -e\ncd " ++ c.build_dir ++
  "\nvirtualenv -p $(which python3) env\nsource env/bin/activate\npip install -U pip setuptools\nif [ -f \"pre-install.sh\" ]; then\n    bash pre-install.sh\nfi\nif [ -f \"pre-requirements.txt\" ]; then\n    pip install -U -r pre-requirements.txt\nfi\npip install -U -r requirements.txt\nif [ -f \"environment.sh\" ]; then\n    source environment.sh\nfi\npip install jupyter\nmkdir -p " ++
  c.artifact_dir ++ "\ncd -\n"

/-- The fixed list of optional support files `Category.setup_build_env`
copies from the source directory when present. -/
def supportFileNames : List String :=
  ["environment.sh", "pre-install.sh", "pre-requirements.txt", "requirements.txt"]

/-- The fixed helper-tool list copied from `<cwd>/.circleci` when
present. -/
def metadataToolNames : List String := ["extract_metadata_from_notebook.py"]

/-- `Category.setup_build_env` as the ordered list of filesystem
operations it performs: create the build and artifact directories, write
the environment-setup script, copy each optional support file that
exists in the source directory, copy the metadata-extraction helper from
`<cwd>/.circleci` when it exists.  `sourceFiles` and `circleciFiles` are
the directory listings consulted by the `os.path.exists` checks. -/
def Category.setup_build_env (c : Category) (sourceFiles : List String)
    (cwd : String) (circleciFiles : List String) : List FileOp :=
  [FileOp.mkdir c.build_dir, FileOp.mkdir c.artifact_dir,
   FileOp.write (joinPath c.build_dir "setup-build-env.sh") (env_setup_script c)]
  ++ (supportFileNames.filter (fun f => sourceFiles.contains f)).map
      (fun f => FileOp.copy (joinPath c.source_dir f) (joinPath c.build_dir f))
  ++ (metadataToolNames.filter (fun f => circleciFiles.contains f)).map
      (fun f => FileOp.copy (joinPath (joinPath cwd ".circleci") f) (joinPath c.build_dir f))

/-- The two per-notebook operations inside `find_build_jobs`:
`notebook.create_build_script(...)` then `notebook.inject_notebook(...)`. -/
def notebook_ops (collectionName : String) (c : Category) (nb : Notebook) : List FileOp :=
  [nb.create_build_script [collectionName, c.name] c.build_dir c.artifact_dir,
   nb.inject_notebook c.build_dir]

/-- The `build_scripts` list assembled by `find_build_jobs` for one
category. -/
def categoryScripts (c : Category) : List String :=
  c.notebooks.map (fun nb => joinPath c.build_dir (nb.filename ++ "-builder.sh"))

/-- All filesystem operations `find_build_jobs` performs for one
category: environment setup followed by script generation and notebook
injection for each notebook in order. -/
def categoryJobOps (collectionName : String) (c : Category) (sourceFiles : List String)
    (cwd : String) (circleciFiles : List String) : List FileOp :=
  c.setup_build_env sourceFiles cwd circleciFiles
    ++ c.notebooks.flatMap (notebook_ops collectionName c)

/-- `os.makedirs p` (without `exist_ok`): raises `FileExistsError` when
the directory already exists, otherwise records it as existing.  The
state is the list of existing directories. -/
def makedirs (st : List String) (p : String) : Except String (List String) :=
  if p ∈ st then .error ("FileExistsError[" ++ p ++ "]") else .ok (p :: st)

/-- One category's processing in `find_build_jobs`, with the two
`os.makedirs` calls of `Category.setup_build_env` made explicit against
a directory-existence state: on success it returns the operations
performed and the updated state. -/
def categoryRun (collectionName : String) (c : Category) (sourceFiles : List String)
    (cwd : String) (circleciFiles : List String) (st : List String) :
    Except String (List FileOp × List String) :=
  match makedirs st c.build_dir with
  | .error e => .error e
  | .ok st1 =>
    match makedirs st1 c.artifact_dir with
    | .error e => .error e
    | .ok st2 => .ok (categoryJobOps collectionName c sourceFiles cwd circleciFiles, st2)

/-- The stale-directory cleanup `build_categories` performs for a
category before yielding it: `shutil.rmtree(build_dir)` and
`shutil.rmtree(artifact_dir)` (each a no-op when absent). -/
def staleCleanup (c : Category) (st : List String) : List String :=
  (st.filter (fun p => p != c.build_dir)).filter (fun p => p != c.artifact_dir)

/-- The hard-coded collection-name list in `build_collections`. -/
def collection_names : List String := ["jdat_notebooks"]

/-- Look up a directly contained subdirectory by name. -/
def findDir : FsForest → String → Option FsTree
  | .nil, _ => none
  | .cons (.dir nm fs subs) rest, n =>
    if nm == n then some (.dir nm fs subs) else findDir rest n

/-- The scan `build_collections` runs for one collection name:
`build_categories(os.path.join(os.getcwd(), name))`.  `root` is the
directory forest of `cwd`; `os.walk` over a nonexistent path yields
nothing, hence the `none` case. -/
def scanPath (cwd : String) (root : FsForest) (nm : String) : Res :=
  match findDir root nm with
  | some t => build_categories cwd (joinPath cwd nm) t
  | none => ([], none)

/-- Helper for `build_collections`: process the collection names in
order; a scan exception aborts the whole run (the list comprehension in
the source drives each scan eagerly). -/
def build_collections_go (cwd : String) (root : FsForest) : List String → Except String (List Collection)
  | [] => .ok []
  | nm :: rest =>
    let r := scanPath cwd root nm
    match r.2 with
    | some e => .error e
    | none =>
      match build_collections_go cwd root rest with
      | .error e => .error e
      | .ok cols => .ok (Collection.mk nm (yields r.1) :: cols)

/-- `build_collections()`: one `Collection` per hard-coded name. -/
def build_collections (cwd : String) (root : FsForest) : Except String (List Collection) :=
  build_collections_go cwd root collection_names

/-- `find_build_jobs()`: one `BuildJob` per category of each collection,
pairing the category with its generated build-script paths. -/
def find_build_jobs (cols : List Collection) : List BuildJob :=
  cols.flatMap (fun col => col.categories.map (fun c => BuildJob.mk c (categoryScripts c)))

/-- The `BuildError` exception raised by `build_artifact`, carrying the
exit code reported in its `f'Process Exit Code[{proc.poll()}]'` message. -/
inductive BuildError : Type where
  | processExitCode (code : Int)
deriving DecidableEq, Repr

/-- `build_artifact`: after polling the subprocess to completion, raises
`BuildError` exactly when the exit status is strictly positive
(`if proc.poll() > 0`); zero and negative statuses raise nothing. -/
def build_artifact (exitCode : Int) : Option BuildError :=
  if exitCode > 0 then some (.processExitCode exitCode) else none

/-- The static skip-list `pass_names` in `main`. -/
def pass_names : List String := ["preimaging_01_mirage.ipynb-builder.sh"]

/-- The subprocess command lines `main` invokes: for every build job's
scripts in order, skip those whose basename is in `pass_names`, invoke
the rest as `f'bash {script}'`. -/
def mainCommands (jobs : List BuildJob) : List String :=
  jobs.flatMap (fun j =>
    (j.scripts.filter (fun s => !(pass_names.contains (basename s)))).map
      (fun s => "bash " ++ s))

/-- Replay semantics for scan events against a directory-existence
state: cleanups remove the corresponding build/artifact directory,
yielding changes nothing. -/
def applyEvent (st : List String) : ScanEvent → List String
  | .cleanupBuild n => st.filter (fun p => p != joinPath BUILD_BASE_DIR n)
  | .cleanupArtifact n => st.filter (fun p => p != joinPath ARTIFACT_DEST_DIR n)
  | .yieldCat _ => st

/-- Replay a list of scan events from an initial directory-existence
state. -/
def replay (st : List String) (evs : List ScanEvent) : List String :=
  evs.foldl applyEvent st

/-! ## Auxiliary definitions for the claims: occurrence relations,
event-stream structure, operation classifiers and concrete fixtures -/

/-- Membership of a tree in a forest. -/
inductive MemF : FsTree → FsForest → Prop where
  | head (t : FsTree) (rest : FsForest) : MemF t (.cons t rest)
  | tail (t c : FsTree) (rest : FsForest) : MemF t rest → MemF t (.cons c rest)

/-- `OccursAt p t rp u`: scanning tree `t` rooted at path `p`, the
directory `u` is one of the `os.walk` nodes and its path is `rp`. -/
inductive OccursAt : String → FsTree → String → FsTree → Prop where
  | refl (p : String) (t : FsTree) : OccursAt p t p t
  | step (p : String) (t c : FsTree) (rp : String) (u : FsTree) :
      MemF c t.subdirs → OccursAt (joinPath p c.name) c rp u → OccursAt p t rp u

/-- `TreeChild p t rp u`: `u` is a subdirectory (with parent path `rp`)
of some walk node of the scan of `t` rooted at `p` — exactly the
directories `build_categories(p)` examines. -/
def TreeChild (p : String) (t : FsTree) (rp : String) (u : FsTree) : Prop :=
  ∃ w, OccursAt p t rp w ∧ MemF u w.subdirs

/-- Scan event lists are concatenations of
`[cleanupBuild n, cleanupArtifact n, yieldCat c]` triples where `c` is a
category named `n` with the derived build/artifact directories. -/
inductive CleanYields : List ScanEvent → Prop where
  | nil : CleanYields []
  | triple (c : Category) (rest : List ScanEvent)
      (hb : c.build_dir = joinPath BUILD_BASE_DIR c.name)
      (ha : c.artifact_dir = joinPath ARTIFACT_DEST_DIR c.name) :
      CleanYields rest →
      CleanYields (.cleanupBuild c.name :: .cleanupArtifact c.name :: .yieldCat c :: rest)

/-- The yielded category `cat` originates from directory `u` at parent
path `rp`: it is the scanner's Category for `u`, `u` directly contains
notebooks, and `u` has the requirements file. -/
def YieldedFrom (cwd : String) (cat : Category) (rp : String) (u : FsTree) : Prop :=
  cat = mkCategory cwd rp u
  ∧ notebooksOf cwd (joinPath rp u.name) u.files ≠ []
  ∧ u.files.contains "requirements.txt" = true

/-- Counterexample fixtures for C2/C3. -/
def catBtree : FsTree := .dir "catB" ["b.ipynb", "requirements.txt"] .nil

def catAtree : FsTree := .dir "catA" ["a.ipynb", "requirements.txt"] (.cons catBtree .nil)

def exTreeC2 : FsTree := .dir "start" [] (.cons catAtree .nil)

def exTreeC3 : FsTree :=
  .dir "start" [] (.cons (.dir "groupA" [] (.cons catBtree .nil)) .nil)

/-- A chain of notebook-free `group` directories above one notebook
directory. -/
def chainT : Nat → FsTree
  | 0 => .dir "leafcat" ["b.ipynb", "requirements.txt"] .nil
  | k+1 => .dir "group" [] (.cons (chainT k) .nil)

/-- Witness fixture: a small category produced by the scanner. -/
def wCat : Category :=
  mkCategory "/w" "/w/jdat_notebooks" (.dir "catX" ["nb1.ipynb", "requirements.txt"] .nil)

/-- Witness fixture: the notebook of `wCat`. -/
def wNb : Notebook := mkNotebook "/w" "/w/jdat_notebooks/catX" "nb1.ipynb"

/-- Witness fixture: one build job whose first script is on the
skip-list. -/
def wJobs : List BuildJob :=
  [BuildJob.mk wCat ["/x/preimaging_01_mirage.ipynb-builder.sh", "/x/nb1.ipynb-builder.sh"]]

/-- Witness fixture: a one-category collection directory tree. -/
def wTree : FsTree :=
  .dir "jdat_notebooks" [] (.cons (.dir "catX" ["nb1.ipynb", "requirements.txt"] .nil) .nil)

/-- Recognizes the write of a per-notebook build script of category `c`
(a write to `<build_dir>/<filename>-builder.sh` for one of `c`'s
notebooks). -/
def isBuilderScriptWrite (c : Category) (op : FileOp) : Bool :=
  match op with
  | .write p _ => c.notebooks.any (fun nb => p == joinPath c.build_dir (nb.filename ++ "-builder.sh"))
  | _ => false

/-- Recognizes the write of the environment-setup script of category
`c`. -/
def isEnvSetupWrite (c : Category) (op : FileOp) : Bool :=
  match op with
  | .write p _ => p == joinPath c.build_dir "setup-build-env.sh"
  | _ => false

/-! ## General lemmas about the embedding -/

theorem strAppend_left_cancel {a x y : String} (h : a ++ x = a ++ y) : x = y := by
  apply String.ext
  have hd := congrArg String.data h
  rw [String.data_append, String.data_append] at hd
  exact List.append_cancel_left hd

theorem combineRes_err_none {r1 r2 : Res} (h : (combineRes r1 r2).2 = none) :
    r1.2 = none ∧ r2.2 = none := by
  unfold combineRes at h
  cases h1 : r1.2 with
  | some e => rw [h1] at h; exact absurd h (by simp)
  | none => rw [h1] at h; exact ⟨rfl, h⟩

theorem combineRes_fst_of_none {r1 r2 : Res} (h : r1.2 = none) :
    (combineRes r1 r2).1 = r1.1 ++ r2.1 := by
  unfold combineRes
  rw [h]

theorem mem_combineRes_left {r1 r2 : Res} {e : ScanEvent} (h : e ∈ r1.1) :
    e ∈ (combineRes r1 r2).1 := by
  unfold combineRes
  cases h1 : r1.2 <;> simp [h]

theorem mem_combineRes {r1 r2 : Res} {e : ScanEvent} (h : e ∈ (combineRes r1 r2).1) :
    e ∈ r1.1 ∨ e ∈ r2.1 := by
  unfold combineRes at h
  cases h1 : r1.2 with
  | some er => rw [h1] at h; exact Or.inl h
  | none => rw [h1] at h; simpa using h

/-! ## Claim C5: exit-status classification in `build_artifact` -/

/-- Claim C5: the driver raises a `BuildError` carrying the exit code
exactly when the subprocess exit status is strictly positive; a zero
status raises nothing, and a negative status (signal termination) also
raises nothing. -/
theorem claim_C5_exit_classification : ∀ code : Int,
    (0 < code → build_artifact code = some (.processExitCode code))
    ∧ build_artifact 0 = none
    ∧ (code < 0 → build_artifact code = none) := by
  intro code
  refine ⟨fun h => ?_, by simp [build_artifact], fun h => ?_⟩
  · simp [build_artifact, h]
  · rw [build_artifact, if_neg (by omega)]

/-- Witness for C5 at exit codes 1, 0 and -9. -/
theorem claim_C5_witness :
    build_artifact 1 = some (.processExitCode 1)
    ∧ build_artifact 0 = none
    ∧ build_artifact (-9) = none :=
  ⟨(claim_C5_exit_classification 1).1 (by decide),
   (claim_C5_exit_classification 1).2.1,
   (claim_C5_exit_classification (-9)).2.2 (by decide)⟩

/-! ## Claim C4: missing `requirements.txt` raises a configuration error -/

/-- Claim C4: when `build_categories` examines a directory that directly
contains notebooks but lacks `requirements.txt`, it raises the
`NotImplementedError` immediately (no cleanup event, no yield for that
directory, remaining work abandoned), and the error propagates uncaught
through `build_collections`. -/
theorem claim_C4_missing_requirements :
    (∀ cwd rp nm fs subs rest,
      notebooksOf cwd (joinPath rp nm) fs ≠ [] →
      fs.contains "requirements.txt" = false →
      rowScan cwd rp (.cons (.dir nm fs subs) rest) =
        ([], some (reqErrMsg cwd (joinPath rp nm))))
    ∧ (∀ cwd root e, (scanPath cwd root "jdat_notebooks").2 = some e →
        build_collections cwd root = .error e) := by
  constructor
  · intro cwd rp nm fs subs rest hnb hreq
    rw [rowScan]
    have hne : (notebooksOf cwd (joinPath rp nm) fs).isEmpty = false := by
      simpa [List.isEmpty_iff] using hnb
    simp only [hne, hreq, Bool.false_eq_true, if_false, combineRes]
  · intro cwd root e h
    rw [build_collections, collection_names, build_collections_go, h]

/-- Witness for C4 on a concrete directory with a notebook and no
`requirements.txt`. -/
theorem claim_C4_witness :
    rowScan "/w" "/w/jdat_notebooks" (.cons (.dir "bad" ["x.ipynb"] .nil) .nil) =
      ([], some (reqErrMsg "/w" "/w/jdat_notebooks/bad"))
    ∧ build_collections "/w"
        (.cons (.dir "jdat_notebooks" [] (.cons (.dir "bad" ["x.ipynb"] .nil) .nil)) .nil) =
      .error (reqErrMsg "/w" "/w/jdat_notebooks/bad") :=
  ⟨claim_C4_missing_requirements.1 "/w" "/w/jdat_notebooks" "bad" ["x.ipynb"] .nil .nil
      (by decide) (by decide),
   claim_C4_missing_requirements.2 "/w"
      (.cons (.dir "jdat_notebooks" [] (.cons (.dir "bad" ["x.ipynb"] .nil) .nil)) .nil)
      (reqErrMsg "/w" "/w/jdat_notebooks/bad") (by decide)⟩

/-! ## Claim C10: the single hard-coded collection -/

/-- Claim C10: `build_collections` processes exactly the hard-coded
collection `jdat_notebooks`, scanned at `<cwd>/jdat_notebooks`; the
result does not depend on which other top-level directories exist. -/
theorem claim_C10_single_collection : ∀ cwd root,
    (∀ cols, build_collections cwd root = .ok cols →
      cols = [Collection.mk "jdat_notebooks" (yields (scanPath cwd root "jdat_notebooks").1)])
    ∧ (∀ root2, findDir root "jdat_notebooks" = findDir root2 "jdat_notebooks" →
        build_collections cwd root = build_collections cwd root2) := by
  intro cwd root
  constructor
  · intro cols h
    rw [build_collections, collection_names, build_collections_go] at h
    cases h2 : (scanPath cwd root "jdat_notebooks").2 with
    | some e => rw [h2] at h; exact absurd h (by simp)
    | none =>
      rw [h2] at h
      rw [build_collections_go] at h
      cases h
      rfl
  · intro root2 hfind
    have hscan : scanPath cwd root "jdat_notebooks" = scanPath cwd root2 "jdat_notebooks" := by
      rw [scanPath, scanPath, hfind]
    rw [build_collections, build_collections, collection_names]
    simp only [build_collections_go]
    rw [hscan]

/-- Witness for C10 on a concrete root holding `jdat_notebooks/catX`
plus an unrelated top-level directory that is ignored. -/
theorem claim_C10_witness :
    [Collection.mk "jdat_notebooks"
        [mkCategory "/w" "/w/jdat_notebooks" (.dir "catX" ["nb1.ipynb", "requirements.txt"] .nil)]] =
      [Collection.mk "jdat_notebooks"
        (yields (scanPath "/w"
          (.cons (.dir "jdat_notebooks" [] (.cons (.dir "catX" ["nb1.ipynb", "requirements.txt"] .nil) .nil))
            (.cons (.dir "other_notebooks" [] (.cons (.dir "catY" ["nb9.ipynb", "requirements.txt"] .nil) .nil)) .nil))
          "jdat_notebooks").1)] :=
  (claim_C10_single_collection "/w"
    (.cons (.dir "jdat_notebooks" [] (.cons (.dir "catX" ["nb1.ipynb", "requirements.txt"] .nil) .nil))
      (.cons (.dir "other_notebooks" [] (.cons (.dir "catY" ["nb9.ipynb", "requirements.txt"] .nil) .nil)) .nil))).1
    [Collection.mk "jdat_notebooks"
      [mkCategory "/w" "/w/jdat_notebooks" (.dir "catX" ["nb1.ipynb", "requirements.txt"] .nil)]]
    (by rfl)
/-! ## Claim C6: the static skip-list in `main` -/

/-- Claim C6: `main` never invokes a script whose basename is in the
static skip-list `pass_names` and invokes every other script as
`bash <script>`; script generation in `find_build_jobs` happens for
every notebook regardless of the skip-list. -/
theorem claim_C6_skip_list :
    (∀ (jobs : List BuildJob) (j : BuildJob) (s : String), j ∈ jobs → s ∈ j.scripts →
      ((pass_names.contains (basename s) = true → ("bash " ++ s) ∉ mainCommands jobs)
       ∧ (pass_names.contains (basename s) = false → ("bash " ++ s) ∈ mainCommands jobs)))
    ∧ (∀ collectionName (c : Category) sourceFiles cwd circleciFiles nb, nb ∈ c.notebooks →
        nb.create_build_script [collectionName, c.name] c.build_dir c.artifact_dir
          ∈ categoryJobOps collectionName c sourceFiles cwd circleciFiles) := by
  constructor
  · intro jobs j s hj hs
    constructor
    · intro hpass hmem
      rw [mainCommands, List.mem_flatMap] at hmem
      obtain ⟨j2, _, hmem2⟩ := hmem
      rw [List.mem_map] at hmem2
      obtain ⟨s2, hs2, heq⟩ := hmem2
      rw [List.mem_filter] at hs2
      have hss : s2 = s := strAppend_left_cancel heq
      subst hss
      rw [hpass] at hs2
      simpa using hs2.2
    · intro hpass
      rw [mainCommands, List.mem_flatMap]
      refine ⟨j, hj, ?_⟩
      rw [List.mem_map]
      refine ⟨s, ?_, rfl⟩
      rw [List.mem_filter]
      exact ⟨hs, by rw [hpass]; rfl⟩
  · intro collectionName c sourceFiles cwd circleciFiles nb hnb
    rw [categoryJobOps]
    apply List.mem_append_right
    rw [List.mem_flatMap]
    exact ⟨nb, hnb, by rw [notebook_ops]; exact List.mem_cons_self _ _⟩

/-- Witness for C6: the skip-listed script is not invoked, the other
script is, and the skip-listed notebook's script generation still
appears among the category's operations. -/
theorem claim_C6_witness :
    ("bash " ++ "/x/preimaging_01_mirage.ipynb-builder.sh") ∉ mainCommands wJobs
    ∧ ("bash " ++ "/x/nb1.ipynb-builder.sh") ∈ mainCommands wJobs
    ∧ wNb.create_build_script ["jdat_notebooks", wCat.name] wCat.build_dir wCat.artifact_dir
        ∈ categoryJobOps "jdat_notebooks" wCat ["nb1.ipynb", "requirements.txt"] "/w" [] :=
  ⟨(claim_C6_skip_list.1 wJobs (BuildJob.mk wCat
      ["/x/preimaging_01_mirage.ipynb-builder.sh", "/x/nb1.ipynb-builder.sh"])
      "/x/preimaging_01_mirage.ipynb-builder.sh" (by decide) (by decide)).1 (by decide),
   (claim_C6_skip_list.1 wJobs (BuildJob.mk wCat
      ["/x/preimaging_01_mirage.ipynb-builder.sh", "/x/nb1.ipynb-builder.sh"])
      "/x/nb1.ipynb-builder.sh" (by decide) (by decide)).2 (by decide),
   claim_C6_skip_list.2 "jdat_notebooks" wCat ["nb1.ipynb", "requirements.txt"] "/w" [] wNb
      (by decide)⟩

/-! ## Claim C9: determinism of script generation -/

theorem not_mem_staleCleanup_build (c : Category) (st : List String) :
    c.build_dir ∉ staleCleanup c st := by
  intro h
  rw [staleCleanup, List.mem_filter] at h
  obtain ⟨h1, _⟩ := h
  rw [List.mem_filter] at h1
  simpa using h1.2

theorem not_mem_staleCleanup_artifact (c : Category) (st : List String) :
    c.artifact_dir ∉ staleCleanup c st := by
  intro h
  rw [staleCleanup, List.mem_filter] at h
  simpa using h.2

/-- Claim C9: with the scanner's stale-directory cleanup performed
before each run, running the environment builder and per-notebook script
generation twice on the same Category succeeds both times and writes
byte-identical operations (in particular, identical script contents). -/
theorem claim_C9_determinism :
    ∀ collectionName (c : Category) sourceFiles cwd circleciFiles st,
      c.build_dir ≠ c.artifact_dir →
      ∃ st1 st2,
        categoryRun collectionName c sourceFiles cwd circleciFiles (staleCleanup c st) =
          .ok (categoryJobOps collectionName c sourceFiles cwd circleciFiles, st1)
        ∧ categoryRun collectionName c sourceFiles cwd circleciFiles (staleCleanup c st1) =
          .ok (categoryJobOps collectionName c sourceFiles cwd circleciFiles, st2) := by
  intro collectionName c sourceFiles cwd circleciFiles st hne
  have run : ∀ s0 : List String,
      categoryRun collectionName c sourceFiles cwd circleciFiles (staleCleanup c s0) =
        .ok (categoryJobOps collectionName c sourceFiles cwd circleciFiles,
          c.artifact_dir :: c.build_dir :: staleCleanup c s0) := by
    intro s0
    have hm1 : makedirs (staleCleanup c s0) c.build_dir =
        .ok (c.build_dir :: staleCleanup c s0) := by
      rw [makedirs, if_neg (not_mem_staleCleanup_build c s0)]
    have hm2 : makedirs (c.build_dir :: staleCleanup c s0) c.artifact_dir =
        .ok (c.artifact_dir :: c.build_dir :: staleCleanup c s0) := by
      rw [makedirs, if_neg ?ha]
      case ha =>
        intro h
        rcases List.mem_cons.mp h with h1 | h1
        · exact hne h1.symm
        · exact not_mem_staleCleanup_artifact c s0 h1
    simp only [categoryRun, hm1, hm2]
  exact ⟨_, _, run st, run _⟩

/-- Witness for C9 on a concrete scanner-produced category. -/
theorem claim_C9_witness :
    ∃ st1 st2,
      categoryRun "jdat_notebooks" wCat ["nb1.ipynb", "requirements.txt"] "/w" []
          (staleCleanup wCat ["/tmp/nbcollection-ci-build-base-dir/catX"]) =
        .ok (categoryJobOps "jdat_notebooks" wCat ["nb1.ipynb", "requirements.txt"] "/w" [], st1)
      ∧ categoryRun "jdat_notebooks" wCat ["nb1.ipynb", "requirements.txt"] "/w" []
          (staleCleanup wCat st1) =
        .ok (categoryJobOps "jdat_notebooks" wCat ["nb1.ipynb", "requirements.txt"] "/w" [], st2) :=
  claim_C9_determinism "jdat_notebooks" wCat ["nb1.ipynb", "requirements.txt"] "/w" []
    ["/tmp/nbcollection-ci-build-base-dir/catX"] (by decide)
/-! ## Claim C7: per-category build-directory contents -/

theorem fn_append_builder_ne_setup (fn : String) :
    fn ++ "-builder.sh" ≠ "setup-build-env.sh" := by
  intro h
  have hd := congrArg String.data h
  rw [String.data_append] at hd
  have hlen := congrArg List.length hd
  rw [List.length_append] at hlen
  have h11 : ("-builder.sh" : String).data.length = 11 := by decide
  have h18 : ("setup-build-env.sh" : String).data.length = 18 := by decide
  rw [h11, h18] at hlen
  have h7 : fn.data.length = 7 := by omega
  have hdrop := congrArg (List.drop fn.data.length) hd
  rw [List.drop_left] at hdrop
  rw [h7] at hdrop
  exact absurd hdrop (by decide)

theorem builderPath_ne_setupPath (c : Category) (fn : String) :
    joinPath c.build_dir (fn ++ "-builder.sh") ≠ joinPath c.build_dir "setup-build-env.sh" := by
  intro h
  exact fn_append_builder_ne_setup fn (strAppend_left_cancel h)

theorem setup_ops_countP_builder (c : Category) (sourceFiles : List String)
    (cwd : String) (circleciFiles : List String) :
    (c.setup_build_env sourceFiles cwd circleciFiles).countP (isBuilderScriptWrite c) = 0 := by
  rw [List.countP_eq_zero]
  intro op hop
  rw [Category.setup_build_env] at hop
  rcases List.mem_append.mp hop with hop1 | hop1
  · rcases List.mem_append.mp hop1 with hop2 | hop2
    · -- the two mkdirs and the env-setup write
      simp only [List.mem_cons, List.not_mem_nil, or_false] at hop2
      rcases hop2 with h | h | h
      · rw [h]; simp [isBuilderScriptWrite]
      · rw [h]; simp [isBuilderScriptWrite]
      · rw [h]
        simp only [isBuilderScriptWrite, Bool.not_eq_true, List.any_eq_false]
        intro nb _
        exact beq_eq_false_iff_ne.mpr fun h2 => builderPath_ne_setupPath c nb.filename h2.symm
    · rcases List.mem_map.mp hop2 with ⟨f, _, hf⟩
      rw [← hf]
      simp [isBuilderScriptWrite]
  · rcases List.mem_map.mp hop1 with ⟨f, _, hf⟩
    rw [← hf]
    simp [isBuilderScriptWrite]

theorem setup_ops_countP_env (c : Category) (sourceFiles : List String)
    (cwd : String) (circleciFiles : List String) :
    (c.setup_build_env sourceFiles cwd circleciFiles).countP (isEnvSetupWrite c) = 1 := by
  rw [Category.setup_build_env, List.countP_append, List.countP_append]
  have h1 : ((supportFileNames.filter (fun f => sourceFiles.contains f)).map
      (fun f => FileOp.copy (joinPath c.source_dir f) (joinPath c.build_dir f))).countP
        (isEnvSetupWrite c) = 0 := by
    rw [List.countP_eq_zero]
    intro op hop
    rcases List.mem_map.mp hop with ⟨f, _, hf⟩
    rw [← hf]
    simp [isEnvSetupWrite]
  have h2 : ((metadataToolNames.filter (fun f => circleciFiles.contains f)).map
      (fun f => FileOp.copy (joinPath (joinPath cwd ".circleci") f) (joinPath c.build_dir f))).countP
        (isEnvSetupWrite c) = 0 := by
    rw [List.countP_eq_zero]
    intro op hop
    rcases List.mem_map.mp hop with ⟨f, _, hf⟩
    rw [← hf]
    simp [isEnvSetupWrite]
  rw [h1, h2]
  simp [List.countP_cons, isEnvSetupWrite]

theorem notebook_ops_countP_builder (collectionName : String) (c : Category) :
    ∀ l : List Notebook, (∀ nb ∈ l, nb ∈ c.notebooks) →
      (l.flatMap (notebook_ops collectionName c)).countP (isBuilderScriptWrite c) = l.length := by
  intro l
  induction l with
  | nil => intro _; rfl
  | cons nb t ih =>
    intro hsub
    rw [List.flatMap_cons, List.countP_append, ih (fun x hx => hsub x (List.mem_cons_of_mem _ hx))]
    have hchunk : (notebook_ops collectionName c nb).countP (isBuilderScriptWrite c) = 1 := by
      rw [notebook_ops, Notebook.create_build_script, Notebook.inject_notebook]
      rw [List.countP_cons, List.countP_cons, List.countP_nil]
      have hw : isBuilderScriptWrite c
          (.write (joinPath c.build_dir (nb.filename ++ "-builder.sh"))
            (build_script_content nb [collectionName, c.name] c.build_dir c.artifact_dir)) = true := by
        simp only [isBuilderScriptWrite, List.any_eq_true]
        exact ⟨nb, hsub nb (List.mem_cons_self _ _), by simp⟩
      rw [hw]
      simp [isBuilderScriptWrite]
    rw [hchunk, List.length_cons]
    omega

theorem notebook_ops_countP_env (collectionName : String) (c : Category) (l : List Notebook) :
    (l.flatMap (notebook_ops collectionName c)).countP (isEnvSetupWrite c) = 0 := by
  rw [List.countP_eq_zero]
  intro op hop
  rcases List.mem_flatMap.mp hop with ⟨nb, _, hmem⟩
  rw [notebook_ops, Notebook.create_build_script, Notebook.inject_notebook] at hmem
  simp only [List.mem_cons, List.not_mem_nil, or_false] at hmem
  rcases hmem with h | h
  · rw [h]
    simp only [isEnvSetupWrite, Bool.not_eq_true]
    exact beq_eq_false_iff_ne.mpr (builderPath_ne_setupPath c nb.filename)
  · rw [h]; simp [isEnvSetupWrite]

/-- Claim C7: processing a Category with N notebooks writes exactly N
per-notebook build scripts and exactly one environment-setup script into
its build directory, copies each notebook file into the build directory,
and copies every optional support file present in the source
directory. -/
theorem claim_C7_build_env_contents :
    ∀ collectionName (c : Category) sourceFiles cwd circleciFiles,
      (categoryJobOps collectionName c sourceFiles cwd circleciFiles).countP
          (isBuilderScriptWrite c) = c.notebooks.length
      ∧ (categoryJobOps collectionName c sourceFiles cwd circleciFiles).countP
          (isEnvSetupWrite c) = 1
      ∧ (∀ nb ∈ c.notebooks,
          nb.inject_notebook c.build_dir ∈ categoryJobOps collectionName c sourceFiles cwd circleciFiles)
      ∧ (∀ f ∈ supportFileNames, sourceFiles.contains f = true →
          FileOp.copy (joinPath c.source_dir f) (joinPath c.build_dir f)
            ∈ categoryJobOps collectionName c sourceFiles cwd circleciFiles) := by
  intro collectionName c sourceFiles cwd circleciFiles
  refine ⟨?_, ?_, ?_, ?_⟩
  · rw [categoryJobOps, List.countP_append, setup_ops_countP_builder,
      notebook_ops_countP_builder collectionName c c.notebooks (fun _ hx => hx)]
    omega
  · rw [categoryJobOps, List.countP_append, setup_ops_countP_env,
      notebook_ops_countP_env]
  · intro nb hnb
    rw [categoryJobOps]
    apply List.mem_append_right
    rw [List.mem_flatMap]
    refine ⟨nb, hnb, ?_⟩
    rw [notebook_ops]
    exact List.mem_cons_of_mem _ (List.mem_cons_self _ _)
  · intro f hf hsrc
    rw [categoryJobOps]
    apply List.mem_append_left
    rw [Category.setup_build_env]
    apply List.mem_append_left
    apply List.mem_append_right
    rw [List.mem_map]
    exact ⟨f, List.mem_filter.mpr ⟨hf, hsrc⟩, rfl⟩

/-- Witness for C7 on a concrete one-notebook category with a present
`requirements.txt` support file. -/
theorem claim_C7_witness :
    (categoryJobOps "jdat_notebooks" wCat ["nb1.ipynb", "requirements.txt"] "/w" []).countP
        (isBuilderScriptWrite wCat) = wCat.notebooks.length
    ∧ (categoryJobOps "jdat_notebooks" wCat ["nb1.ipynb", "requirements.txt"] "/w" []).countP
        (isEnvSetupWrite wCat) = 1
    ∧ wNb.inject_notebook wCat.build_dir
        ∈ categoryJobOps "jdat_notebooks" wCat ["nb1.ipynb", "requirements.txt"] "/w" []
    ∧ FileOp.copy (joinPath wCat.source_dir "requirements.txt") (joinPath wCat.build_dir "requirements.txt")
        ∈ categoryJobOps "jdat_notebooks" wCat ["nb1.ipynb", "requirements.txt"] "/w" [] :=
  have h := claim_C7_build_env_contents "jdat_notebooks" wCat ["nb1.ipynb", "requirements.txt"] "/w" []
  ⟨h.1, h.2.1, h.2.2.1 wNb (by decide), h.2.2.2 "requirements.txt" (by decide) (by decide)⟩
/-! ## Claim C1: artifact path layout and collision-freedom -/

theorem seg_peel {xs ys r1 r2 : List Char} (hx : '/' ∉ xs) (hy : '/' ∉ ys)
    (h : xs ++ '/' :: r1 = ys ++ '/' :: r2) : xs = ys ∧ r1 = r2 := by
  induction xs generalizing ys with
  | nil =>
    cases ys with
    | nil => simpa using h
    | cons b bs =>
      rw [List.nil_append, List.cons_append] at h
      injection h with h1 h2
      rw [← h1] at hy
      exact absurd (List.mem_cons_self _ _) hy
  | cons a as ih =>
    cases ys with
    | nil =>
      rw [List.nil_append, List.cons_append] at h
      injection h with h1 h2
      rw [h1] at hx
      exact absurd (List.mem_cons_self _ _) hx
    | cons b bs =>
      rw [List.cons_append, List.cons_append] at h
      injection h with h1 h2
      have hx2 : '/' ∉ as := fun hm => hx (List.mem_cons_of_mem _ hm)
      have hy2 : '/' ∉ bs := fun hm => hy (List.mem_cons_of_mem _ hm)
      obtain ⟨he, hr⟩ := ih hx2 hy2 h2
      exact ⟨by rw [h1, he], hr⟩

/-- Counterexample to claim C1: for the scanner-produced category `catX`
of collection `jdat_notebooks` with notebook `nb1.ipynb`, the artifact
paths embedded in the generated build script are
`<artifact-root>/catX/jdat_notebooks/catX/nb1.ipynb.*` (the category's
artifact directory is already namespaced by category name and the
collection/category pair is appended to it), not the claimed
`<artifact-root>/jdat_notebooks/catX/nb1.ipynb.*`. -/
theorem claim_C1_counterexample :
    metadata_path wCat.artifact_dir ["jdat_notebooks", wCat.name] "nb1.ipynb" =
      "/tmp/artifacts/catX/jdat_notebooks/catX/nb1.ipynb.metadata.json"
    ∧ metadata_path wCat.artifact_dir ["jdat_notebooks", wCat.name] "nb1.ipynb" ≠
      "/tmp/artifacts/jdat_notebooks/catX/nb1.ipynb.metadata.json"
    ∧ html_path wCat.artifact_dir ["jdat_notebooks", wCat.name] "nb1.ipynb" =
      "/tmp/artifacts/catX/jdat_notebooks/catX/nb1.ipynb.html"
    ∧ html_path wCat.artifact_dir ["jdat_notebooks", wCat.name] "nb1.ipynb" ≠
      "/tmp/artifacts/jdat_notebooks/catX/nb1.ipynb.html" := by decide

/-- Claim C1 as amended: for a category named `cat` (artifact directory
`<artifact-root>/<cat>`) in collection `coll`, the artifact paths are
exactly `<artifact-root>/<cat>/<coll>/<cat>/<filename>.metadata.json`
and `...html`; for slash-free collection/category names these paths
still determine the collection and category names, so categories that
differ in collection or category name never collide. -/
theorem claim_C1_amended_paths :
    (∀ coll cat fn : String,
      metadata_path (joinPath ARTIFACT_DEST_DIR cat) [coll, cat] fn =
        ARTIFACT_DEST_DIR ++ "/" ++ cat ++ "/" ++ coll ++ "/" ++ cat ++ "/" ++ fn ++ ".metadata.json"
      ∧ html_path (joinPath ARTIFACT_DEST_DIR cat) [coll, cat] fn =
        ARTIFACT_DEST_DIR ++ "/" ++ cat ++ "/" ++ coll ++ "/" ++ cat ++ "/" ++ fn ++ ".html")
    ∧ (∀ coll1 cat1 fn1 coll2 cat2 fn2 : String,
        '/' ∉ cat1.data → '/' ∉ coll1.data → '/' ∉ cat2.data → '/' ∉ coll2.data →
        metadata_path (joinPath ARTIFACT_DEST_DIR cat1) [coll1, cat1] fn1 =
          metadata_path (joinPath ARTIFACT_DEST_DIR cat2) [coll2, cat2] fn2 →
        coll1 = coll2 ∧ cat1 = cat2) := by
  have hslash : ("/" : String).data = ['/'] := rfl
  constructor
  · intro coll cat fn
    constructor <;>
      · apply String.ext
        simp [metadata_path, html_path, pyJoin, joinPath, String.data_append, List.append_assoc]
  · intro coll1 cat1 fn1 coll2 cat2 fn2 hc1 ho1 hc2 ho2 h
    have hd := congrArg String.data h
    simp only [metadata_path, pyJoin, List.foldl_cons, List.foldl_nil, joinPath,
      ARTIFACT_DEST_DIR, String.data_append, List.append_assoc, hslash,
      List.singleton_append] at hd
    have hd2 := List.append_cancel_left hd
    injection hd2 with _ hd3
    obtain ⟨hcat, hd4⟩ := seg_peel hc1 hc2 hd3
    simp only [List.append_eq, List.append_assoc, List.cons_append] at hd4
    obtain ⟨hcoll, _⟩ := seg_peel ho1 ho2 hd4
    exact ⟨String.ext hcoll, String.ext hcat⟩

/-- Witness for the amended C1 at concrete names. -/
theorem claim_C1_witness :
    (metadata_path (joinPath ARTIFACT_DEST_DIR "catX") ["jdat_notebooks", "catX"] "nb1.ipynb" =
      ARTIFACT_DEST_DIR ++ "/" ++ "catX" ++ "/" ++ "jdat_notebooks" ++ "/" ++ "catX" ++ "/" ++
        "nb1.ipynb" ++ ".metadata.json")
    ∧ ("jdat_notebooks" = "jdat_notebooks" ∧ "catX" = "catX") :=
  ⟨(claim_C1_amended_paths.1 "jdat_notebooks" "catX" "nb1.ipynb").1,
   claim_C1_amended_paths.2 "jdat_notebooks" "catX" "nb1.ipynb" "jdat_notebooks" "catX" "nb1.ipynb"
     (by decide) (by decide) (by decide) (by decide) rfl⟩
/-! ## Scanner structure: equation lemmas and occurrence relations -/

theorem rowScan_nil (cwd rp : String) : rowScan cwd rp .nil = ([], none) := rfl

theorem walkRest_nil (cwd p : String) : walkRest cwd p .nil = ([], none) := rfl

theorem walkRest_cons (cwd p nm : String) (fs : List String) (subs rest : FsForest) :
    walkRest cwd p (.cons (.dir nm fs subs) rest) =
      combineRes
        (combineRes (rowScan cwd (joinPath p nm) subs) (walkRest cwd (joinPath p nm) subs))
        (walkRest cwd p rest) := by
  rw [walkRest]

theorem rowScan_cons_yield (cwd rp nm : String) (fs : List String) (subs rest : FsForest)
    (hnb : (notebooksOf cwd (joinPath rp nm) fs).isEmpty = false)
    (hreq : fs.contains "requirements.txt" = true) :
    rowScan cwd rp (.cons (.dir nm fs subs) rest) =
      combineRes
        ([ScanEvent.cleanupBuild nm, ScanEvent.cleanupArtifact nm,
          ScanEvent.yieldCat (mkCategory cwd rp (.dir nm fs subs))], none)
        (rowScan cwd rp rest) := by
  rw [rowScan]
  simp only [hnb, hreq, Bool.false_eq_true, if_false, if_true]

theorem rowScan_cons_err (cwd rp nm : String) (fs : List String) (subs rest : FsForest)
    (hnb : (notebooksOf cwd (joinPath rp nm) fs).isEmpty = false)
    (hreq : fs.contains "requirements.txt" = false) :
    rowScan cwd rp (.cons (.dir nm fs subs) rest) =
      ([], some (reqErrMsg cwd (joinPath rp nm))) := by
  rw [rowScan]
  simp only [hnb, hreq, Bool.false_eq_true, if_false, combineRes]

theorem rowScan_cons_rec (cwd rp nm : String) (fs : List String) (subs rest : FsForest)
    (hnb : (notebooksOf cwd (joinPath rp nm) fs).isEmpty = true) :
    rowScan cwd rp (.cons (.dir nm fs subs) rest) =
      combineRes (build_categories cwd (joinPath rp nm) (.dir nm fs subs))
        (rowScan cwd rp rest) := by
  rw [rowScan, build_categories]
  simp only [hnb, if_true, FsTree.subdirs]

theorem rowScan_cons_shape (cwd rp nm : String) (fs : List String) (subs rest : FsForest) :
    ∃ r1 : Res, rowScan cwd rp (.cons (.dir nm fs subs) rest) =
      combineRes r1 (rowScan cwd rp rest) :=
  ⟨_, by rw [rowScan]⟩

theorem mem_combineRes_right {r1 r2 : Res} {e : ScanEvent} (h1 : r1.2 = none)
    (h : e ∈ r2.1) : e ∈ (combineRes r1 r2).1 := by
  unfold combineRes
  rw [h1]
  exact List.mem_append_right _ h

theorem treeChild_step {p rp : String} {t d u : FsTree} (hd : MemF d t.subdirs)
    (h : TreeChild (joinPath p d.name) d rp u) : TreeChild p t rp u := by
  obtain ⟨w, hw, hu⟩ := h
  exact ⟨w, OccursAt.step p t d rp w hd hw, hu⟩

/-! ## Claim C8: stale directories are removed before each yield -/

theorem cleanYields_append {l1 l2 : List ScanEvent}
    (h1 : CleanYields l1) (h2 : CleanYields l2) : CleanYields (l1 ++ l2) := by
  induction h1 with
  | nil => simpa using h2
  | triple c rest hb ha _ ih => exact CleanYields.triple c (rest ++ l2) hb ha ih

theorem cleanYields_combineRes {r1 r2 : Res}
    (h1 : CleanYields r1.1) (h2 : CleanYields r2.1) : CleanYields (combineRes r1 r2).1 := by
  unfold combineRes
  cases he : r1.2 with
  | some e => exact h1
  | none => exact cleanYields_append h1 h2

theorem scan_cleanYields_aux : ∀ n : Nat, ∀ cs : FsForest, sizeOf cs ≤ n →
    ∀ cwd rp : String,
      CleanYields (rowScan cwd rp cs).1 ∧ CleanYields (walkRest cwd rp cs).1 := by
  intro n
  induction n with
  | zero =>
    intro cs hcs
    exact absurd hcs (by cases cs <;> simp)
  | succ n ih =>
    intro cs hcs cwd rp
    cases cs with
    | nil => exact ⟨by rw [rowScan_nil]; exact CleanYields.nil,
        by rw [walkRest_nil]; exact CleanYields.nil⟩
    | cons c rest =>
      cases c with
      | dir nm fs subs =>
        have hsub : sizeOf subs ≤ n := by
          have h1 := FsForest.cons.sizeOf_spec (FsTree.dir nm fs subs) rest
          have h2 := FsTree.dir.sizeOf_spec nm fs subs
          omega
        have hrest : sizeOf rest ≤ n := by
          have h1 := FsForest.cons.sizeOf_spec (FsTree.dir nm fs subs) rest
          have h2 := FsTree.dir.sizeOf_spec nm fs subs
          omega
        have ihsub := ih subs hsub cwd (joinPath rp nm)
        have ihrest := ih rest hrest cwd rp
        constructor
        · cases hnb : (notebooksOf cwd (joinPath rp nm) fs).isEmpty with
          | true =>
            rw [rowScan_cons_rec cwd rp nm fs subs rest hnb, build_categories]
            exact cleanYields_combineRes (cleanYields_combineRes ihsub.1 ihsub.2) ihrest.1
          | false =>
            cases hreq : fs.contains "requirements.txt" with
            | true =>
              rw [rowScan_cons_yield cwd rp nm fs subs rest hnb hreq]
              refine cleanYields_combineRes ?_ ihrest.1
              exact CleanYields.triple (mkCategory cwd rp (.dir nm fs subs)) [] rfl rfl
                CleanYields.nil
            | false =>
              rw [rowScan_cons_err cwd rp nm fs subs rest hnb hreq]
              exact CleanYields.nil
        · rw [walkRest_cons]
          exact cleanYields_combineRes (cleanYields_combineRes ihsub.1 ihsub.2) ihrest.2

theorem build_categories_cleanYields (cwd p : String) (t : FsTree) :
    CleanYields (build_categories cwd p t).1 := by
  rw [build_categories]
  have h := scan_cleanYields_aux (sizeOf t.subdirs) t.subdirs (Nat.le_refl _) cwd p
  exact cleanYields_combineRes h.1 h.2

theorem cleanYields_decomp {L : List ScanEvent} (h : CleanYields L) :
    ∀ pre (c : Category) post, L = pre ++ ScanEvent.yieldCat c :: post →
      ∃ pre0, pre = pre0 ++ [ScanEvent.cleanupBuild c.name, ScanEvent.cleanupArtifact c.name]
        ∧ c.build_dir = joinPath BUILD_BASE_DIR c.name
        ∧ c.artifact_dir = joinPath ARTIFACT_DEST_DIR c.name := by
  induction h with
  | nil =>
    intro pre c post hL
    exact absurd hL.symm (by simp)
  | triple c0 rest hb ha _ ih =>
    intro pre c post hL
    cases pre with
    | nil =>
      rw [List.nil_append] at hL
      injection hL with h1 h2
      injection h1
    | cons e1 pre1 =>
      rw [List.cons_append] at hL
      injection hL with he1 hL
      cases pre1 with
      | nil =>
        rw [List.nil_append] at hL
        injection hL with h2 h3
        injection h2
      | cons e2 pre2 =>
        rw [List.cons_append] at hL
        injection hL with he2 hL
        cases pre2 with
        | nil =>
          rw [List.nil_append] at hL
          injection hL with he3 hL
          injection he3 with hc
          subst hc
          exact ⟨[], by rw [he1, he2, List.nil_append], hb, ha⟩
        | cons e3 pre3 =>
          rw [List.cons_append] at hL
          injection hL with he3 hL
          obtain ⟨pre0, hpre, hb2, ha2⟩ := ih pre3 c post hL
          refine ⟨e1 :: e2 :: e3 :: pre0, ?_, hb2, ha2⟩
          rw [hpre]
          simp
  
theorem replay_append (st : List String) (l1 l2 : List ScanEvent) :
    replay st (l1 ++ l2) = replay (replay st l1) l2 :=
  List.foldl_append _ _ _ _

/-- Claim C8: whenever the scanner's event stream yields a Category, the
immediately preceding cleanup events have removed both the category's
build directory and its artifact directory, so at yield time neither
stale directory exists — from any initial directory state. -/
theorem claim_C8_stale_cleanup : ∀ cwd p (t : FsTree) (init : List String) pre (c : Category) post,
    (build_categories cwd p t).1 = pre ++ ScanEvent.yieldCat c :: post →
    c.build_dir ∉ replay init pre ∧ c.artifact_dir ∉ replay init pre := by
  intro cwd p t init pre c post hL
  obtain ⟨pre0, hpre, hb, ha⟩ := cleanYields_decomp (build_categories_cleanYields cwd p t) pre c post hL
  subst hpre
  rw [replay_append]
  constructor
  · intro hmem
    rw [show replay (replay init pre0) [ScanEvent.cleanupBuild c.name, ScanEvent.cleanupArtifact c.name]
        = ((replay init pre0).filter (fun q => q != joinPath BUILD_BASE_DIR c.name)).filter
            (fun q => q != joinPath ARTIFACT_DEST_DIR c.name) from rfl] at hmem
    rw [List.mem_filter, List.mem_filter] at hmem
    rw [hb] at hmem
    simpa using hmem.1.2
  · intro hmem
    rw [show replay (replay init pre0) [ScanEvent.cleanupBuild c.name, ScanEvent.cleanupArtifact c.name]
        = ((replay init pre0).filter (fun q => q != joinPath BUILD_BASE_DIR c.name)).filter
            (fun q => q != joinPath ARTIFACT_DEST_DIR c.name) from rfl] at hmem
    rw [List.mem_filter] at hmem
    rw [ha] at hmem
    simpa using hmem.2

/-- Witness for C8: scanning `wTree` yields `wCat` after the two cleanup
events, and replaying them from a state where both stale directories
exist shows neither exists at yield time. -/
theorem claim_C8_witness :
    wCat.build_dir ∉ replay [wCat.build_dir, wCat.artifact_dir]
      [ScanEvent.cleanupBuild "catX", ScanEvent.cleanupArtifact "catX"]
    ∧ wCat.artifact_dir ∉ replay [wCat.build_dir, wCat.artifact_dir]
      [ScanEvent.cleanupBuild "catX", ScanEvent.cleanupArtifact "catX"] :=
  claim_C8_stale_cleanup "/w" "/w/jdat_notebooks" wTree [wCat.build_dir, wCat.artifact_dir]
    [ScanEvent.cleanupBuild "catX", ScanEvent.cleanupArtifact "catX"] wCat [] (by decide)
/-! ## Claim C2: which directories produce Categories -/

theorem treeChild_of_subReach {rp nm : String} {fs : List String} {subs : FsForest}
    {rp2 : String} {u : FsTree}
    (h : (MemF u subs ∧ rp2 = joinPath rp nm)
      ∨ ∃ d, MemF d subs ∧ TreeChild (joinPath (joinPath rp nm) d.name) d rp2 u) :
    TreeChild (joinPath rp nm) (.dir nm fs subs) rp2 u := by
  rcases h with ⟨hm, hrp⟩ | ⟨d, hm, htc⟩
  · subst hrp
    exact ⟨.dir nm fs subs, OccursAt.refl _ _, hm⟩
  · exact treeChild_step (show MemF d (FsTree.dir nm fs subs).subdirs from hm) htc

theorem notebooksOf_ne_nil_of_isEmpty_false {cwd dp : String} {fs : List String}
    (h : (notebooksOf cwd dp fs).isEmpty = false) : notebooksOf cwd dp fs ≠ [] := by
  intro hE
  rw [hE] at h
  simp at h

theorem scan_sound_aux : ∀ n : Nat, ∀ cs : FsForest, sizeOf cs ≤ n →
    ∀ (cwd rp : String) (cat : Category),
    (ScanEvent.yieldCat cat ∈ (rowScan cwd rp cs).1 →
      ∃ rp2 u, YieldedFrom cwd cat rp2 u ∧
        ((MemF u cs ∧ rp2 = rp) ∨ ∃ c, MemF c cs ∧ TreeChild (joinPath rp c.name) c rp2 u))
    ∧ (ScanEvent.yieldCat cat ∈ (walkRest cwd rp cs).1 →
      ∃ rp2 u, YieldedFrom cwd cat rp2 u ∧
        ∃ c, MemF c cs ∧ TreeChild (joinPath rp c.name) c rp2 u) := by
  intro n
  induction n with
  | zero =>
    intro cs hcs
    exact absurd hcs (by cases cs <;> simp)
  | succ n ih =>
    intro cs hcs cwd rp cat
    cases cs with
    | nil =>
      constructor
      · intro h
        rw [rowScan_nil] at h
        simp at h
      · intro h
        rw [walkRest_nil] at h
        simp at h
    | cons c rest =>
      cases c with
      | dir nm fs subs =>
        have hsub : sizeOf subs ≤ n := by
          have h1 := FsForest.cons.sizeOf_spec (FsTree.dir nm fs subs) rest
          have h2 := FsTree.dir.sizeOf_spec nm fs subs
          omega
        have hrest : sizeOf rest ≤ n := by
          have h1 := FsForest.cons.sizeOf_spec (FsTree.dir nm fs subs) rest
          have h2 := FsTree.dir.sizeOf_spec nm fs subs
          omega
        have ihsub := ih subs hsub cwd (joinPath rp nm) cat
        have ihrest := ih rest hrest cwd rp cat
        constructor
        · intro hmem
          cases hnb : (notebooksOf cwd (joinPath rp nm) fs).isEmpty with
          | false =>
            cases hreq : fs.contains "requirements.txt" with
            | true =>
              rw [rowScan_cons_yield cwd rp nm fs subs rest hnb hreq] at hmem
              rcases mem_combineRes hmem with h1 | h1
              · simp only [List.mem_cons, List.not_mem_nil, or_false] at h1
                rcases h1 with h | h | h
                · injection h
                · injection h
                · injection h with hc
                  refine ⟨rp, .dir nm fs subs,
                    ⟨hc, notebooksOf_ne_nil_of_isEmpty_false hnb, hreq⟩,
                    Or.inl ⟨MemF.head _ _, rfl⟩⟩
              · obtain ⟨rp2, u, hyf, hor⟩ := ihrest.1 h1
                refine ⟨rp2, u, hyf, ?_⟩
                rcases hor with ⟨hm, hrp⟩ | ⟨d, hm, htc⟩
                · exact Or.inl ⟨MemF.tail _ _ _ hm, hrp⟩
                · exact Or.inr ⟨d, MemF.tail _ _ _ hm, htc⟩
            | false =>
              rw [rowScan_cons_err cwd rp nm fs subs rest hnb hreq] at hmem
              simp at hmem
          | true =>
            rw [rowScan_cons_rec cwd rp nm fs subs rest hnb] at hmem
            rcases mem_combineRes hmem with h1 | h1
            · rw [build_categories] at h1
              rcases mem_combineRes h1 with h2 | h2
              · obtain ⟨rp2, u, hyf, hor⟩ := ihsub.1 h2
                exact ⟨rp2, u, hyf, Or.inr ⟨.dir nm fs subs, MemF.head _ _,
                  treeChild_of_subReach hor⟩⟩
              · obtain ⟨rp2, u, hyf, d, hm, htc⟩ := ihsub.2 h2
                exact ⟨rp2, u, hyf, Or.inr ⟨.dir nm fs subs, MemF.head _ _,
                  treeChild_of_subReach (Or.inr ⟨d, hm, htc⟩)⟩⟩
            · obtain ⟨rp2, u, hyf, hor⟩ := ihrest.1 h1
              refine ⟨rp2, u, hyf, ?_⟩
              rcases hor with ⟨hm, hrp⟩ | ⟨d, hm, htc⟩
              · exact Or.inl ⟨MemF.tail _ _ _ hm, hrp⟩
              · exact Or.inr ⟨d, MemF.tail _ _ _ hm, htc⟩
        · intro hmem
          rw [walkRest_cons] at hmem
          rcases mem_combineRes hmem with h1 | h1
          · rcases mem_combineRes h1 with h2 | h2
            · obtain ⟨rp2, u, hyf, hor⟩ := ihsub.1 h2
              exact ⟨rp2, u, hyf, .dir nm fs subs, MemF.head _ _, treeChild_of_subReach hor⟩
            · obtain ⟨rp2, u, hyf, d, hm, htc⟩ := ihsub.2 h2
              exact ⟨rp2, u, hyf, .dir nm fs subs, MemF.head _ _,
                treeChild_of_subReach (Or.inr ⟨d, hm, htc⟩)⟩
          · obtain ⟨rp2, u, hyf, d, hm, htc⟩ := ihrest.2 h1
            exact ⟨rp2, u, hyf, d, MemF.tail _ _ _ hm, htc⟩

theorem rowScan_yield_of_child : ∀ (cs : FsForest) (cwd rp : String) (u : FsTree),
    MemF u cs →
    (rowScan cwd rp cs).2 = none →
    notebooksOf cwd (joinPath rp u.name) u.files ≠ [] →
    ScanEvent.yieldCat (mkCategory cwd rp u) ∈ (rowScan cwd rp cs).1 := by
  intro cs cwd rp u hm
  induction hm with
  | head rest =>
    intro hok hnb
    cases u with
    | dir nm fs subs =>
      simp only [FsTree.name, FsTree.files] at hnb
      have hnbF : (notebooksOf cwd (joinPath rp nm) fs).isEmpty = false := by
        cases hE : (notebooksOf cwd (joinPath rp nm) fs).isEmpty with
        | false => rfl
        | true => exact absurd (List.isEmpty_iff.mp hE) hnb
      cases hreq : fs.contains "requirements.txt" with
      | true =>
        rw [rowScan_cons_yield cwd rp nm fs subs rest hnbF hreq]
        apply mem_combineRes_left
        simp
      | false =>
        rw [rowScan_cons_err cwd rp nm fs subs rest hnbF hreq] at hok
        simp at hok
  | tail c0 rest hm ih =>
    intro hok hnb
    cases c0 with
    | dir nm fs subs =>
      obtain ⟨r1, hshape⟩ := rowScan_cons_shape cwd rp nm fs subs rest
      rw [hshape] at hok ⊢
      obtain ⟨h1, h2⟩ := combineRes_err_none hok
      exact mem_combineRes_right h1 (ih h2 hnb)

theorem walkRest_sub : ∀ (cs : FsForest) (cwd p : String) (c : FsTree), MemF c cs →
    (walkRest cwd p cs).2 = none →
    (build_categories cwd (joinPath p c.name) c).2 = none
    ∧ ∀ e, e ∈ (build_categories cwd (joinPath p c.name) c).1 → e ∈ (walkRest cwd p cs).1 := by
  intro cs cwd p c hm
  induction hm with
  | head rest =>
    intro hok
    cases c with
    | dir nm fs subs =>
      rw [walkRest_cons] at hok ⊢
      obtain ⟨hinner, _⟩ := combineRes_err_none hok
      rw [build_categories]
      simp only [FsTree.name, FsTree.subdirs]
      exact ⟨hinner, fun e he => mem_combineRes_left he⟩
  | tail c0 rest hm ih =>
    intro hok
    cases c0 with
    | dir nm fs subs =>
      rw [walkRest_cons] at hok ⊢
      obtain ⟨h1, h2⟩ := combineRes_err_none hok
      obtain ⟨ha, hb⟩ := ih h2
      exact ⟨ha, fun e he => mem_combineRes_right h1 (hb e he)⟩

theorem scan_yield_of_occurs : ∀ (cwd p : String) (t : FsTree) (rp : String) (w : FsTree),
    OccursAt p t rp w →
    (build_categories cwd p t).2 = none →
    ∀ u, MemF u w.subdirs → notebooksOf cwd (joinPath rp u.name) u.files ≠ [] →
    ScanEvent.yieldCat (mkCategory cwd rp u) ∈ (build_categories cwd p t).1 := by
  intro cwd p t rp w hocc
  induction hocc with
  | refl p t =>
    intro hok u hm hnb
    rw [build_categories] at hok ⊢
    obtain ⟨h1, _⟩ := combineRes_err_none hok
    exact mem_combineRes_left (rowScan_yield_of_child t.subdirs cwd p u hm h1 hnb)
  | step p t c rp w hmc hocc ih =>
    intro hok u hm hnb
    rw [build_categories] at hok ⊢
    obtain ⟨h1, h2⟩ := combineRes_err_none hok
    obtain ⟨hcok, hsubset⟩ := walkRest_sub t.subdirs cwd p c hmc h2
    exact mem_combineRes_right h1 (hsubset _ (ih hcok u hm hnb))

/-- Counterexample to claim C2: scanning a root whose child `catA`
directly contains a notebook and itself has a notebook-bearing
subdirectory `catB`, the scanner yields a Category for `catA` AND one
for the subdirectory `catB` — the `os.walk` traversal still descends
into notebook-bearing directories. -/
theorem claim_C2_counterexample :
    yields (build_categories "/w" "/w/start" exTreeC2).1 =
      [mkCategory "/w" "/w/start" catAtree, mkCategory "/w" "/w/start/catA" catBtree] := by
  decide

/-- Claim C2 as amended: (a) every Category the scanner yields is the
Category of a directory examined by the walk that directly contains at
least one notebook file and has the requirements file, and its notebook
list equals that directory's directly contained notebook files;
(b) conversely, when the scan raises no error, every notebook-bearing
directory examined by the walk yields its Category at least once.  (The
walk does additionally descend into notebook-bearing directories'
subdirectories, so notebook-bearing subdirectories also yield
Categories — see the counterexample — and a directory can be examined,
hence yielded, more than once.) -/
theorem claim_C2_amended_scan :
    (∀ (cwd p : String) (t : FsTree) (cat : Category),
      ScanEvent.yieldCat cat ∈ (build_categories cwd p t).1 →
      ∃ rp u, TreeChild p t rp u ∧ cat = mkCategory cwd rp u
        ∧ cat.notebooks = notebooksOf cwd (joinPath rp u.name) u.files
        ∧ cat.notebooks ≠ []
        ∧ u.files.contains "requirements.txt" = true)
    ∧ (∀ (cwd p : String) (t : FsTree), (build_categories cwd p t).2 = none →
      ∀ (rp : String) (w : FsTree), OccursAt p t rp w → ∀ u, MemF u w.subdirs →
        notebooksOf cwd (joinPath rp u.name) u.files ≠ [] →
        ScanEvent.yieldCat (mkCategory cwd rp u) ∈ (build_categories cwd p t).1) := by
  constructor
  · intro cwd p t cat hmem
    rw [build_categories] at hmem
    have aux := scan_sound_aux (sizeOf t.subdirs) t.subdirs (Nat.le_refl _) cwd p cat
    have hres : ∃ rp2 u, YieldedFrom cwd cat rp2 u ∧ TreeChild p t rp2 u := by
      rcases mem_combineRes hmem with h1 | h1
      · obtain ⟨rp2, u, hyf, hor⟩ := aux.1 h1
        refine ⟨rp2, u, hyf, ?_⟩
        rcases hor with ⟨hm, hrp⟩ | ⟨d, hm, htc⟩
        · subst hrp
          exact ⟨t, OccursAt.refl _ _, hm⟩
        · exact treeChild_step hm htc
      · obtain ⟨rp2, u, hyf, d, hm, htc⟩ := aux.2 h1
        exact ⟨rp2, u, hyf, treeChild_step hm htc⟩
    obtain ⟨rp2, u, ⟨hcat, hnb, hreq⟩, htc⟩ := hres
    refine ⟨rp2, u, htc, hcat, ?_, ?_, hreq⟩
    · rw [hcat]
      rfl
    · rw [hcat]
      exact hnb
  · intro cwd p t hok rp w hocc u hm hnb
    exact scan_yield_of_occurs cwd p t rp w hocc hok u hm hnb

/-- Witness for the amended C2: part (a) applied to the Category the
scanner yields for the nested directory `catB`, part (b) applied to the
root's direct child `catA`. -/
theorem claim_C2_witness :
    (∃ rp u, TreeChild "/w/start" exTreeC2 rp u
      ∧ mkCategory "/w" "/w/start/catA" catBtree = mkCategory "/w" rp u
      ∧ (mkCategory "/w" "/w/start/catA" catBtree).notebooks =
          notebooksOf "/w" (joinPath rp u.name) u.files
      ∧ (mkCategory "/w" "/w/start/catA" catBtree).notebooks ≠ []
      ∧ u.files.contains "requirements.txt" = true)
    ∧ ScanEvent.yieldCat (mkCategory "/w" "/w/start" catAtree)
        ∈ (build_categories "/w" "/w/start" exTreeC2).1 :=
  ⟨claim_C2_amended_scan.1 "/w" "/w/start" exTreeC2 (mkCategory "/w" "/w/start/catA" catBtree)
      (by decide),
   claim_C2_amended_scan.2 "/w" "/w/start" exTreeC2 (by decide) "/w/start" exTreeC2
      (OccursAt.refl _ _) catAtree (MemF.head _ _) (by decide)⟩
/-! ## Claim C3: forwarding from grouping directories, and duplication -/

/-- Counterexample to claim C3: for a notebook-free grouping directory
`groupA` holding the notebook directory `catB`, the scan of the parent
yields the very same Category for `catB` twice (once forwarded from the
recursion into `groupA`, once again from the outer `os.walk` entry for
`groupA`), so Categories are not yielded exactly once. -/
theorem claim_C3_counterexample :
    yields (build_categories "/w" "/w/start" exTreeC3).1 =
      [mkCategory "/w" "/w/start/groupA" catBtree,
       mkCategory "/w" "/w/start/groupA" catBtree] := by
  decide

theorem combineRes_empty_right (r : Res) : combineRes r ([], none) = r := by
  obtain ⟨evs, err⟩ := r
  cases err <;> simp [combineRes]

theorem combineRes_snd_none {r1 r2 : Res} (h1 : r1.2 = none) :
    (combineRes r1 r2).2 = r2.2 := by
  unfold combineRes
  rw [h1]

theorem yields_append (l1 l2 : List ScanEvent) :
    yields (l1 ++ l2) = yields l1 ++ yields l2 := by
  unfold yields
  exact List.filterMap_append _ _ _

/-- Scanning a grouping directory `nm'` that holds exactly one
subdirectory `t` and no files processes `t`'s whole scan TWICE: once via
the recursive `build_categories(dirpath)` call forwarded from the inner
loop, once more because `os.walk` of the parent also walks into `t`. -/
theorem scan_wrap (cwd p nm' : String) (t : FsTree) (hfs : t.files = []) :
    build_categories cwd p (.dir nm' [] (.cons t .nil)) =
      combineRes (build_categories cwd (joinPath p t.name) t)
        (build_categories cwd (joinPath p t.name) t) := by
  cases t with
  | dir nm fs subs =>
    have hfs2 : fs = [] := hfs
    subst hfs2
    rw [build_categories]
    show combineRes
        (rowScan cwd p (.cons (.dir nm [] subs) .nil))
        (walkRest cwd p (.cons (.dir nm [] subs) .nil)) = _
    rw [rowScan_cons_rec cwd p nm [] subs .nil rfl]
    rw [walkRest_cons cwd p nm [] subs .nil]
    rw [rowScan_nil, walkRest_nil, combineRes_empty_right, combineRes_empty_right]
    rfl

theorem chain_scan_spec : ∀ (k : Nat) (cwd p : String),
    (build_categories cwd p (chainT (k+1))).2 = none
    ∧ (yields (build_categories cwd p (chainT (k+1))).1).length = 2 ^ k := by
  intro k
  induction k with
  | zero =>
    intro cwd p
    have he : build_categories cwd p (chainT 1) =
        ([ScanEvent.cleanupBuild "leafcat", ScanEvent.cleanupArtifact "leafcat",
          ScanEvent.yieldCat (mkCategory cwd p (chainT 0))], none) := rfl
    rw [he]
    exact ⟨rfl, rfl⟩
  | succ k ih =>
    intro cwd p
    have hw : build_categories cwd p (chainT (k+1+1)) =
        combineRes (build_categories cwd (joinPath p (chainT (k+1)).name) (chainT (k+1)))
          (build_categories cwd (joinPath p (chainT (k+1)).name) (chainT (k+1))) := by
      rw [show chainT (k+1+1) = FsTree.dir "group" [] (.cons (chainT (k+1)) .nil) from rfl]
      exact scan_wrap cwd p "group" (chainT (k+1)) rfl
    obtain ⟨hok, hlen⟩ := ih cwd (joinPath p (chainT (k+1)).name)
    constructor
    · rw [hw, combineRes_snd_none hok]
      exact hok
    · rw [hw, combineRes_fst_of_none hok, yields_append, List.length_append, hlen]
      rw [pow_succ]
      omega

/-- Claim C3 as amended: for a directory with no direct notebooks, the
scanner forwards the Categories of the recursion into it unchanged (in
depth-first order); but because the enclosing `os.walk` also traverses
that directory's subtree itself, the yielded Categories are NOT unique:
below a chain of k+1 nested notebook-free directories the single
notebook directory's Category is yielded `2 ^ k` times. -/
theorem claim_C3_amended_forward_dup :
    (∀ (cwd rp nm : String) (fs : List String) (subs rest : FsForest),
      notebooksOf cwd (joinPath rp nm) fs = [] →
      rowScan cwd rp (.cons (.dir nm fs subs) rest) =
        combineRes (build_categories cwd (joinPath rp nm) (.dir nm fs subs))
          (rowScan cwd rp rest))
    ∧ (∀ (cwd p : String) (k : Nat),
        (yields (build_categories cwd p (chainT (k+1))).1).length = 2 ^ k) := by
  constructor
  · intro cwd rp nm fs subs rest hnb
    exact rowScan_cons_rec cwd rp nm fs subs rest (by rw [hnb]; rfl)
  · intro cwd p k
    exact (chain_scan_spec k cwd p).2

/-- Witness for the amended C3: the grouping directory `groupA` forwards
the recursion's result, and the depth-3 chain yields `2 ^ 2 = 4`
Categories. -/
theorem claim_C3_witness :
    rowScan "/w" "/w/start" (.cons (.dir "groupA" [] (.cons catBtree .nil)) .nil) =
      combineRes
        (build_categories "/w" (joinPath "/w/start" "groupA")
          (.dir "groupA" [] (.cons catBtree .nil)))
        (rowScan "/w" "/w/start" .nil)
    ∧ (yields (build_categories "/w" "/w/q" (chainT 3)).1).length = 2 ^ 2 :=
  ⟨claim_C3_amended_forward_dup.1 "/w" "/w/start" "groupA" [] (.cons catBtree .nil) .nil rfl,
   claim_C3_amended_forward_dup.2 "/w" "/w/q" 2⟩
end BuildNotebooks
